import Mathlib

/-!
Verification of the two notebooks of this repository:
`ch03/gridworld-example.ipynb` (5×5 Gridworld Bellman equations) and
`ch05/blackjack-prediction.ipynb` (Monte-Carlo Blackjack simulator).

The Python code is shallowly embedded: numpy arrays become functions of
their indices, imperative loops become structural recursion (with
explicit fuel where the source loop is a `while`), and the stream of
`np.random` card draws becomes an explicit infinite sequence
`draws : ℕ → ℕ` consumed left to right.

The construction loop of `p_gridworld` only ever stores the Python int
literals `0` and `1` (`val = 0`, `val = 1`), so the raw tensor is
embedded with exact integer entries; the normalisation step and the
linear system divide, and are embedded over `ℚ`.
-/

namespace Gridworld

/-- `rewards = np.array([0, 5, 10, -1])`: the reward value stored at each
reward index. -/
def rewardVals : Fin 4 → ℤ := ![0, 5, 10, -1]

/-- `action_map`: row/column displacement of each action, in the order
`up, right, down, left` of the `actions` list. -/
def actionDelta : Fin 4 → ℤ × ℤ := ![(-1, 0), (0, 1), (1, 0), (0, -1)]

/-- `get_pos(ix)`: flattened index to `(row, col)` with `col = ix % 5`,
`row = ix // 5`. -/
def getPos (ix : ℤ) : ℤ × ℤ := (ix / 5, ix % 5)

/-- `get_state(position) = 5 * row + col`. -/
def getState (position : ℤ × ℤ) : ℤ := 5 * position.1 + position.2

/-- `move(state, action) = get_pos(state) + action_map[action]`. -/
def move (state : ℤ) (a : Fin 4) : ℤ × ℤ :=
  ((getPos state).1 + (actionDelta a).1, (getPos state).2 + (actionDelta a).2)

/-- `is_out_of_bounds`: some coordinate below `lb = 0` or above `ub = 4`.
(The source body reads the enclosing cell's variable `new_pos` instead of
its parameter; at its single call site the argument is that very
variable, so the behaviour embedded here is the call-site behaviour.) -/
def is_out_of_bounds (p : ℤ × ℤ) : Bool :=
  p.1 < 0 || p.2 < 0 || p.1 > 4 || p.2 > 4

/-- `s in special_states` for `special_states = [1, 3]`. -/
def isSpecial (s : ℤ) : Prop := s = 1 ∨ s = 3

instance (s : ℤ) : Decidable (isSpecial s) := by
  unfold isSpecial; infer_instance

/-- `special_map = {1: 10, 3: 5}` (queried only at the two special
states). -/
def special_map (s : ℤ) : ℤ := if s = 1 then 10 else 5

/-- `special_state_map = {1: 21, 3: 13}` (queried only at the two special
states). -/
def special_state_map (s : ℤ) : ℤ := if s = 1 then 21 else 13

/-- The `new_state` finally used by the write
`p_gridworld[new_state, r_pos, a_pos, s] = val` of the construction loop
for a given `(s, action)`: the loop overwrites the moved-to state by the
special target when `s` is special, and by `s` itself when the move left
the grid. It does not depend on the reward being processed. -/
def writeState (s : ℤ) (a : Fin 4) : ℤ :=
  if isSpecial s then special_state_map s
  else if is_out_of_bounds (move s a) then s
  else getState (move s a)

/-- The `val` written for `(s, r, action)` by the construction loop:
`1` when the reward processed matches the branch taken (`special_map[s]`
on a special state, `-1` on an out-of-bounds move, `0` otherwise), else
`0`. -/
def writeVal (s : ℤ) (a : Fin 4) (r : Fin 4) : ℤ :=
  if isSpecial s then (if rewardVals r = special_map s then 1 else 0)
  else if is_out_of_bounds (move s a) then (if rewardVals r = -1 then 1 else 0)
  else (if rewardVals r = 0 then 1 else 0)

/-- The tensor produced by the construction loop before the final
normalisation: for each `(s, r, action)` the loop writes `writeVal` at
row `writeState s a`, and every cell it never writes keeps the initial
`np.zeros` value.  (For fixed `(s, action)` all four reward iterations
share the same `new_state`, and distinct `(s, action)` pairs write to
disjoint cells, so no write clobbers another.) -/
def pRaw (s' : Fin 25) (r : Fin 4) (a : Fin 4) (s : Fin 25) : ℤ :=
  if (s' : ℤ) = writeState s a then writeVal s a r else 0

/-- `p_gridworld.sum(axis=0, keepdims=True).sum(axis=1, keepdims=True)`:
the sum of one `(action, s)` slice over next states and rewards. -/
def sliceSum (a : Fin 4) (s : Fin 25) : ℤ :=
  ∑ s' : Fin 25, ∑ r : Fin 4, pRaw s' r a s

/-- The final tensor `p_gridworld`, after the normalisation line
`p_gridworld = p_gridworld / p_gridworld.sum(axis=0, ...).sum(axis=1, ...)`. -/
def p_gridworld (s' : Fin 25) (r : Fin 4) (a : Fin 4) (s : Fin 25) : ℚ :=
  (pRaw s' r a s : ℚ) / (sliceSum a s : ℚ)

/-- `γ = 0.9`. -/
def gam : ℚ := 9 / 10

/-- `A = I - γ / 4 * p_gridworld.sum(axis=1).sum(axis=1).T`:
entry `(s, s')` is `δ(s, s') - γ/4 · Σ_{r, a} p(s', r | a, s)`. -/
def Alin (s s' : Fin 25) : ℚ :=
  (if s = s' then 1 else 0) - gam / 4 * ∑ r : Fin 4, ∑ a : Fin 4, p_gridworld s' r a s

/-- `b = (p_gridworld * rewards[None, :, None, None]).sum(axis=0).sum(axis=0).sum(axis=0) / 4`. -/
def blin (s : Fin 25) : ℚ :=
  (∑ s' : Fin 25, ∑ r : Fin 4, ∑ a : Fin 4, (rewardVals r : ℚ) * p_gridworld s' r a s) / 4

lemma sliceSum_eq_one : ∀ (a : Fin 4) (s : Fin 25), sliceSum a s = 1 := by decide

lemma p_gridworld_eq_pRaw (s' : Fin 25) (r : Fin 4) (a : Fin 4) (s : Fin 25) :
    p_gridworld s' r a s = (pRaw s' r a s : ℚ) := by
  rw [p_gridworld, sliceSum_eq_one, Int.cast_one, div_one]

end Gridworld

namespace Blackjack

/-!
`draw_card` samples `np.random.multinomial(1, deck_probs).argmax()`, a
one-hot draw over the 10-entry deck distribution, so each call yields an
index in `0, …, 9`.  The random stream is embedded as an infinite
sequence `draws : ℕ → ℕ` together with the index of the next card to be
consumed; one call to `draw_card` returns `draws i` and advances the
index to `i + 1`.
-/

/-- `update_player_card(current_value, new_card)`: an ace (`new_card == 1`)
is promoted to 11 when the current value is at most 10 and flagged as a
usable ace; the card value is added to the hand. -/
def update_player_card (currentValue : ℤ) (newCard : ℤ) : ℤ × Bool :=
  if newCard = 1 ∧ currentValue ≤ 10 then (currentValue + 11, true)
  else (currentValue + newCard, false)

/-- `dealer_strategy(value_cards)`: `while value_cards < 17: value_cards
+= draw_card()`.  The `while` loop is embedded with explicit fuel: `none`
means the loop is still running when the fuel runs out.  The result also
carries the index of the next unconsumed card. -/
def dealer_strategy (draws : ℕ → ℕ) : ℕ → ℤ → ℕ → Option (ℤ × ℕ)
  | fuel, valueCards, i =>
    if valueCards < 17 then
      match fuel with
      | 0 => none
      | fuel + 1 => dealer_strategy draws fuel (valueCards + (draws i : ℤ)) (i + 1)
    else some (valueCards, i)

/-- The player's hit loop of `blackjack`:
`while policy[player_value_cards - 12][1] != 1.0:` draw a card, update the
hand with `update_player_card`, keep a previously acquired usable ace,
append `0` to `hist_reward`, and `break` once the hand exceeds 21.  The
policy table is embedded as a function of its two indices; the loop
state is `(hand value, usable-ace flag, hist_reward so far, next card
index)`. -/
def playerLoop (policy : ℤ → ℤ → ℚ) (draws : ℕ → ℕ) :
    ℕ → ℤ → Bool → List ℤ → ℕ → Option (ℤ × Bool × List ℤ × ℕ)
  | fuel, v, ace, hist, i =>
    if policy (v - 12) 1 ≠ 1 then
      match fuel with
      | 0 => none
      | fuel + 1 =>
        match update_player_card v (draws i) with
        | (v', newAce) =>
          if v' > 21 then some (v', ace || newAce, hist ++ [0], i + 1)
          else playerLoop policy draws fuel v' (ace || newAce) (hist ++ [0]) (i + 1)
    else some (v, ace, hist, i)

/-- The two return shapes of `blackjack`: the early branch for a player
starting at 21 executes `return reward` (a bare scalar), the normal path
executes `return reward, hist_reward` (a pair). -/
inductive BJReturn where
  | bare : ℤ → BJReturn
  | full : ℤ → List ℤ → BJReturn
deriving DecidableEq, Repr

/-- The terminal reward carried by either return shape. -/
def BJReturn.reward : BJReturn → ℤ
  | .bare r => r
  | .full r _ => r

/-- `blackjack(player_value_cards, dealer_cards, policy, has_usable_ace)`:
initialises `reward = 0`, `hist_reward = [reward]`; returns the bare
`reward = 1` when the player starts at 21 and the dealer's total is not
21; otherwise runs the player's hit loop, then the dealer's strategy on
`sum(dealer_cards)`, assigns the reward (`-1` on a player bust, else `1`
on a dealer bust, else `1`/`0` by comparing totals), appends it to
`hist_reward` and returns the pair.  `fuel` bounds both `while` loops;
`none` means a loop was still running. -/
def blackjack (fuel : ℕ) (playerValueCards : ℤ) (dealerCards : List ℤ)
    (policy : ℤ → ℤ → ℚ) (hasUsableAce : Bool) (draws : ℕ → ℕ) :
    Option BJReturn :=
  let histReward : List ℤ := [0]
  let dealerValueCards := dealerCards.sum
  if playerValueCards = 21 ∧ dealerValueCards ≠ 21 then
    some (.bare 1)
  else
    match playerLoop policy draws fuel playerValueCards hasUsableAce histReward 0 with
    | none => none
    | some (pv, _, hist, i) =>
      match dealer_strategy draws fuel dealerCards.sum i with
      | none => none
      | some (dv, _) =>
        let reward : ℤ :=
          if pv > 21 then -1
          else if dv > 21 then 1
          else if pv > dv then 1 else 0
        some (.full reward (hist ++ [reward]))

/-- The policy of the notebook: `policy = np.zeros((10, 2))`,
`policy[:-2, 0] = 1` (hit below a hand of 20), `policy[-2:, 1] = 1`
(stick at 20 and 21), as a function of its two indices. -/
def stdPolicy (g a : ℤ) : ℚ :=
  if 0 ≤ g ∧ g ≤ 7 ∧ a = 0 then 1
  else if 8 ≤ g ∧ g ≤ 9 ∧ a = 1 then 1
  else 0

end Blackjack

namespace Gridworld

/-- C6: in the Gridworld transition tensor, state A (flattened index 1)
transitions, under every one of the four actions, with probability 1 to
the landing cell of flattened index 21 with reward +10 (reward index 2),
and with probability 0 to every other (next state, reward) pair. -/
theorem C6_specialA_teleports :
    ∀ (a : Fin 4) (s' : Fin 25) (r : Fin 4),
      p_gridworld s' r a 1 = if s' = 21 ∧ r = 2 then 1 else 0 := by
  have hz : ∀ (a : Fin 4) (s' : Fin 25) (r : Fin 4),
      pRaw s' r a 1 = if s' = 21 ∧ r = 2 then 1 else 0 := by decide
  intro a s' r
  rw [p_gridworld_eq_pRaw, hz]
  split <;> norm_num

/-- C1, counterexample: the claim asserts the out-of-bounds behaviour for
all 25 states "including the special cells", but at the special state 1
the action `up` (index 0) does move out of the grid, yet the constructed
tensor puts probability 0 — not 1 — on staying at state 1 with reward −1
(reward index 3): the special branch of the loop wins and puts the whole
mass on state 21 with reward +10. -/
theorem C1_counterexample :
    is_out_of_bounds (move 1 0) = true ∧
    p_gridworld 1 3 0 1 ≠ 1 ∧ p_gridworld 1 3 0 1 = 0 ∧ p_gridworld 21 2 0 1 = 1 := by
  have h1 : pRaw 1 3 0 1 = 0 := by decide
  have h2 : pRaw 21 2 0 1 = 1 := by decide
  refine ⟨by decide, ?_, ?_, ?_⟩ <;> rw [p_gridworld_eq_pRaw]
  · rw [h1]; norm_num
  · rw [h1]; norm_num
  · rw [h2]; norm_num

/-- C1, amended: for every **non-special** state `s` and every action
whose move leaves the 5×5 grid, the transition tensor has probability 1
on (next state `s`, reward −1) and probability 0 on every other
(next state, reward) pair. -/
theorem C1_boundary_moves :
    ∀ (s : Fin 25) (a : Fin 4), ¬ isSpecial (s : ℤ) →
      is_out_of_bounds (move (s : ℤ) a) = true →
      p_gridworld s 3 a s = 1 ∧
      ∀ (s' : Fin 25) (r : Fin 4), ¬(s' = s ∧ r = 3) → p_gridworld s' r a s = 0 := by
  have hz : ∀ (s : Fin 25) (a : Fin 4), ¬ isSpecial (s : ℤ) →
      is_out_of_bounds (move (s : ℤ) a) = true →
      pRaw s 3 a s = 1 ∧
      ∀ (s' : Fin 25) (r : Fin 4), ¬(s' = s ∧ r = 3) → pRaw s' r a s = 0 := by decide
  intro s a h1 h2
  obtain ⟨k1, k2⟩ := hz s a h1 h2
  constructor
  · rw [p_gridworld_eq_pRaw, k1]; norm_num
  · intro s' r hne
    rw [p_gridworld_eq_pRaw, k2 s' r hne]; norm_num

/-- Witness for the amended C1 at state 0 (corner) and action `up`. -/
theorem C1_boundary_moves_witness :
    (¬ isSpecial ((0 : Fin 25) : ℤ)) ∧
    is_out_of_bounds (move ((0 : Fin 25) : ℤ) 0) = true ∧
    (p_gridworld 0 3 0 0 = 1 ∧
      ∀ (s' : Fin 25) (r : Fin 4), ¬(s' = 0 ∧ r = 3) → p_gridworld s' r 0 0 = 0) :=
  ⟨by decide, by decide, C1_boundary_moves 0 0 (by decide) (by decide)⟩

/-- C10: every (action, state) slice of the raw constructed tensor has
exactly one entry equal to 1 and is 0 elsewhere, hence sums to 1, and
the final normalisation step leaves the tensor unchanged (the normalised
tensor equals the raw one entrywise). -/
theorem C10_slices_are_distributions :
    ∀ (a : Fin 4) (s : Fin 25),
      (Finset.univ.filter (fun t : Fin 25 × Fin 4 => pRaw t.1 t.2 a s = 1)).card = 1 ∧
      (∀ (s' : Fin 25) (r : Fin 4), pRaw s' r a s = 1 ∨ pRaw s' r a s = 0) ∧
      sliceSum a s = 1 ∧
      (∀ (s' : Fin 25) (r : Fin 4), p_gridworld s' r a s = (pRaw s' r a s : ℚ)) := by
  intro a s
  refine ⟨?_, ?_, sliceSum_eq_one a s, fun s' r => p_gridworld_eq_pRaw s' r a s⟩
  · revert a s; decide
  · revert a s; decide

lemma sum3_comm (f : Fin 25 → Fin 4 → Fin 4 → ℚ) :
    ∑ s' : Fin 25, ∑ r : Fin 4, ∑ a : Fin 4, f s' r a
      = ∑ a : Fin 4, ∑ s' : Fin 25, ∑ r : Fin 4, f s' r a := by
  rw [show (∑ s' : Fin 25, ∑ r : Fin 4, ∑ a : Fin 4, f s' r a)
      = ∑ s' : Fin 25, ∑ a : Fin 4, ∑ r : Fin 4, f s' r a from
    Finset.sum_congr rfl fun s' _ => Finset.sum_comm]
  exact Finset.sum_comm

/-- C3: any vector `v` solving the linear system `A v = b` built by the
notebook satisfies the fixed-policy Bellman equation
`v(s) = 1/4 · Σ_{a,s',r} p(s',r|s,a) (r + γ v(s'))` at every state. -/
theorem C3_linear_solve_is_bellman :
    ∀ v : Fin 25 → ℚ,
      (∀ s, ∑ s' : Fin 25, Alin s s' * v s' = blin s) →
      ∀ s, v s = (1 / 4) * ∑ a : Fin 4, ∑ s' : Fin 25, ∑ r : Fin 4,
        p_gridworld s' r a s * ((rewardVals r : ℚ) + gam * v s') := by
  intro v h s
  have hs := h s
  have e1 : ∀ s' : Fin 25, Alin s s' * v s'
      = (if s = s' then v s' else 0)
        - gam / 4 * ((∑ r : Fin 4, ∑ a : Fin 4, p_gridworld s' r a s) * v s') := by
    intro s'
    rw [Alin, sub_mul, ite_mul, one_mul, zero_mul, mul_assoc]
  rw [Finset.sum_congr rfl fun s' _ => e1 s', Finset.sum_sub_distrib,
    Finset.sum_ite_eq, if_pos (Finset.mem_univ s), ← Finset.mul_sum] at hs
  -- hs : v s - γ/4 * Σ_{s'} (Σ_{r,a} p) v(s') = b s
  have goal2 : ∑ a : Fin 4, ∑ s' : Fin 25, ∑ r : Fin 4,
      p_gridworld s' r a s * ((rewardVals r : ℚ) + gam * v s')
      = (∑ a : Fin 4, ∑ s' : Fin 25, ∑ r : Fin 4,
          (rewardVals r : ℚ) * p_gridworld s' r a s)
        + gam * ∑ s' : Fin 25,
            (∑ r : Fin 4, ∑ a : Fin 4, p_gridworld s' r a s) * v s' := by
    have split1 : ∀ (a : Fin 4) (s' : Fin 25), ∑ r : Fin 4,
        p_gridworld s' r a s * ((rewardVals r : ℚ) + gam * v s')
        = (∑ r : Fin 4, (rewardVals r : ℚ) * p_gridworld s' r a s)
          + gam * ∑ r : Fin 4, p_gridworld s' r a s * v s' := by
      intro a s'
      rw [Finset.mul_sum, ← Finset.sum_add_distrib]
      exact Finset.sum_congr rfl fun r _ => by ring
    rw [show (∑ a : Fin 4, ∑ s' : Fin 25, ∑ r : Fin 4,
        p_gridworld s' r a s * ((rewardVals r : ℚ) + gam * v s'))
        = ∑ a : Fin 4, ((∑ s' : Fin 25, ∑ r : Fin 4,
            (rewardVals r : ℚ) * p_gridworld s' r a s)
          + gam * ∑ s' : Fin 25, ∑ r : Fin 4, p_gridworld s' r a s * v s') from
      Finset.sum_congr rfl fun a _ => by
        rw [Finset.sum_congr rfl fun s' _ => split1 a s', Finset.sum_add_distrib,
          ← Finset.mul_sum]]
    rw [Finset.sum_add_distrib, ← Finset.mul_sum]
    congr 1
    rw [Finset.sum_comm]
    congr 1
    refine Finset.sum_congr rfl fun s' _ => ?_
    rw [Finset.sum_mul, Finset.sum_comm]
    exact Finset.sum_congr rfl fun r _ => (Finset.sum_mul _ _ _).symm
  have hb : blin s = (1 / 4) * ∑ a : Fin 4, ∑ s' : Fin 25, ∑ r : Fin 4,
      (rewardVals r : ℚ) * p_gridworld s' r a s := by
    rw [blin]
    rw [show (∑ s' : Fin 25, ∑ r : Fin 4, ∑ a : Fin 4,
        (rewardVals r : ℚ) * p_gridworld s' r a s)
        = ∑ a : Fin 4, ∑ s' : Fin 25, ∑ r : Fin 4,
          (rewardVals r : ℚ) * p_gridworld s' r a s from sum3_comm _]
    ring
  rw [goal2, mul_add, ← hb]
  have hgam : (1 / 4 : ℚ) * (gam * ∑ s' : Fin 25,
      (∑ r : Fin 4, ∑ a : Fin 4, p_gridworld s' r a s) * v s')
      = gam / 4 * ∑ s' : Fin 25,
          (∑ r : Fin 4, ∑ a : Fin 4, p_gridworld s' r a s) * v s' := by
    ring
  rw [hgam]
  linarith [hs]

/-- The matrix `A` scaled by 40, with exact integer entries: `Alin s s'`
equals `AZ s s' / 40`. -/
def AZ (s s' : Fin 25) : ℤ :=
  (if s = s' then 40 else 0) - 9 * ∑ r : Fin 4, ∑ a : Fin 4, pRaw s' r a s

/-- The vector `b` scaled by 4, with exact integer entries: `blin s`
equals `bZ s / 4`. -/
def bZ (s : Fin 25) : ℤ :=
  ∑ s' : Fin 25, ∑ r : Fin 4, ∑ a : Fin 4, rewardVals r * pRaw s' r a s

/-- Common denominator of the exact rational solution of `A v = b`. -/
def vDen : ℤ := 63930087070970054436332951

/-- Numerators (over `vDen`) of the exact rational solution of `A v = b`. -/
def vNum : Fin 25 → ℤ :=
  ![211544423854643298169167140,
    561900194067938611806437000,
    283058079859647880105524940,
    340259423667866966442001300,
    95395117971712620460709090,
    97275257734456238021155900,
    191299141089146571877265310,
    143851642970726069266517550,
    121951225166594507621607060,
    34995502642919560098249700,
    3249086220415010289030040,
    47191310067530511471513150,
    43032189310060237135680690,
    22898875903351882511485050,
    -25772848400506360592419460,
    -62241840741701653567862300,
    -27841260763930657206362040,
    -22687654230229631535379350,
    -37437784283473350780490290,
    -75634092958048846387698500,
    -118762957932378877109379310,
    -86000751824179925063213900,
    -78587163063676813750514360,
    -90967281086066074723919600,
    -126273368537110699033237360]

/-- The exact rational solution of the linear system `A v = b`. -/
def vStar (s : Fin 25) : ℚ := (vNum s : ℚ) / (vDen : ℚ)

lemma Alin_cast (s s' : Fin 25) : Alin s s' = (AZ s s' : ℚ) / 40 := by
  rw [Alin, AZ]
  simp only [p_gridworld_eq_pRaw]
  push_cast
  rw [gam]
  split <;> ring

lemma blin_cast (s : Fin 25) : blin s = (bZ s : ℚ) / 4 := by
  rw [blin, bZ]
  simp only [p_gridworld_eq_pRaw]
  push_cast
  ring

lemma key_identity :
    ∀ s : Fin 25, (∑ s' : Fin 25, AZ s s' * vNum s') * 4 = bZ s * (40 * vDen) := by
  decide

lemma vStar_solves : ∀ s : Fin 25, ∑ s' : Fin 25, Alin s s' * vStar s' = blin s := by
  intro s
  have hA : ∀ s' : Fin 25,
      Alin s s' * vStar s' = ((AZ s s' * vNum s' : ℤ) : ℚ) / (40 * (vDen : ℚ)) := by
    intro s'
    rw [Alin_cast, vStar, div_mul_div_comm]
    push_cast
    ring
  rw [Finset.sum_congr rfl fun s' _ => hA s', ← Finset.sum_div, blin_cast,
    div_eq_div_iff (by norm_num [vDen]) (by norm_num)]
  push_cast
  exact_mod_cast key_identity s

/-- Witness for C3: the exact rational solution `vStar` of the linear
system satisfies the fixed-policy Bellman equation at every state. -/
theorem C3_witness :
    (∀ s, ∑ s' : Fin 25, Alin s s' * vStar s' = blin s) ∧
    (∀ s, vStar s = (1 / 4) * ∑ a : Fin 4, ∑ s' : Fin 25, ∑ r : Fin 4,
      p_gridworld s' r a s * ((rewardVals r : ℚ) + gam * vStar s')) :=
  ⟨vStar_solves, C3_linear_solve_is_bellman vStar vStar_solves⟩

end Gridworld

namespace Blackjack

/-- C2: evaluation of `blackjack` at a player hand of 21 against a dealer
total of 18.  The early branch executes `return reward`, producing the
bare scalar `1` and discarding the step history it just built, while
every other branch returns the pair `(reward, hist_reward)` — the two
branches do not have the same shape, contradicting the documented
interface (a terminal reward **and** a step history). -/
theorem C2_early_return_is_bare :
    blackjack 10 21 [10, 8] stdPolicy false (fun _ => 1) = some (.bare 1) := by
  decide

/-- C4: whenever the hit loop ends with a player hand above 21 (and the
early 21-branch was not taken), `blackjack` returns reward −1, whatever
the dealer's final total — the dealer result `(dv, j)` is arbitrary. -/
theorem C4_player_bust_loses :
    ∀ (fuel : ℕ) (playerValueCards : ℤ) (dealerCards : List ℤ) (policy : ℤ → ℤ → ℚ)
      (ace : Bool) (draws : ℕ → ℕ) (pv : ℤ) (ace' : Bool) (hist : List ℤ) (i : ℕ)
      (dv : ℤ) (j : ℕ),
      ¬(playerValueCards = 21 ∧ dealerCards.sum ≠ 21) →
      playerLoop policy draws fuel playerValueCards ace [0] 0 = some (pv, ace', hist, i) →
      dealer_strategy draws fuel dealerCards.sum i = some (dv, j) →
      pv > 21 →
      blackjack fuel playerValueCards dealerCards policy ace draws
        = some (.full (-1) (hist ++ [-1])) := by
  intro fuel v dc policy ace draws pv ace' hist i dv j hne hp hd hbust
  simp only [blackjack]
  rw [if_neg hne, hp]
  dsimp only
  rw [hd]
  dsimp only
  rw [if_pos hbust]

/-- Witness for C4: starting at 12, the all-fives stream busts the player
at 22 and the dealer stops at 21; the reward is −1. -/
theorem C4_witness :
    (¬((12 : ℤ) = 21 ∧ ([10, 6] : List ℤ).sum ≠ 21)) ∧
    playerLoop stdPolicy (fun _ => 5) 5 12 false [0] 0 = some (22, false, [0, 0, 0], 2) ∧
    dealer_strategy (fun _ => 5) 5 ([10, 6] : List ℤ).sum 2 = some (21, 3) ∧
    (22 : ℤ) > 21 ∧
    blackjack 5 12 [10, 6] stdPolicy false (fun _ => 5)
      = some (.full (-1) ([0, 0, 0] ++ [-1])) :=
  ⟨by decide, by decide, by decide, by decide,
    C4_player_bust_loses 5 12 [10, 6] stdPolicy false (fun _ => 5) 22 false [0, 0, 0] 2
      21 3 (by decide) (by decide) (by decide) (by decide)⟩

/-- C5: under any policy table marking `stick` for hand values 20 and 21
(`policy[8][1] = policy[9][1] = 1`), the hit loop entered at a hand of 20
or 21 returns at once: hand, ace flag, history and the card-stream index
are all unchanged, so no further card is ever drawn for the player. -/
theorem C5_stick_at_20_21_draws_nothing :
    ∀ (policy : ℤ → ℤ → ℚ) (draws : ℕ → ℕ) (fuel : ℕ) (v : ℤ) (ace : Bool)
      (hist : List ℤ) (i : ℕ),
      policy 8 1 = 1 → policy 9 1 = 1 → (v = 20 ∨ v = 21) →
      playerLoop policy draws fuel v ace hist i = some (v, ace, hist, i) := by
  intro policy draws fuel v ace hist i h8 h9 hv
  have hstick : ¬ policy (v - 12) 1 ≠ 1 := by
    rcases hv with h | h <;> subst h
    · rw [show (20 : ℤ) - 12 = 8 from by norm_num, h8]
      exact fun hc => hc rfl
    · rw [show (21 : ℤ) - 12 = 9 from by norm_num, h9]
      exact fun hc => hc rfl
  rw [playerLoop.eq_def]
  dsimp only
  rw [if_neg hstick]

/-- Witness for C5 at a hand of 20 under the notebook's policy. -/
theorem C5_witness :
    stdPolicy 8 1 = 1 ∧ stdPolicy 9 1 = 1 ∧ ((20 : ℤ) = 20 ∨ (20 : ℤ) = 21) ∧
    playerLoop stdPolicy (fun _ => 1) 3 20 false [0] 0 = some (20, false, [0], 0) :=
  ⟨by decide, by decide, Or.inl rfl,
    C5_stick_at_20_21_draws_nothing stdPolicy (fun _ => 1) 3 20 false [0] 0
      (by decide) (by decide) (Or.inl rfl)⟩

/-- C7: the dealer's `while value_cards < 17` loop does **not** terminate
on every card stream `draw_card` can produce: `draw_card` returns the
argmax index of a one-hot multinomial over the 10-entry deck
distribution, so the index 0 is drawable, and on the all-zero stream a
dealer total of 16 (e.g. cards 10 and 6) stays at 16 forever — no fuel
makes the embedded loop return. -/
theorem C7_dealer_loop_diverges :
    ¬ ∃ fuel : ℕ, (dealer_strategy (fun _ => 0) fuel 16 0).isSome = true := by
  rintro ⟨fuel, h⟩
  have key : ∀ f i : ℕ, dealer_strategy (fun _ => 0) f 16 i = none := by
    intro f
    induction f with
    | zero =>
      intro i
      rw [dealer_strategy, if_pos (by norm_num)]
    | succ n ih =>
      intro i
      rw [dealer_strategy, if_pos (by norm_num)]
      simpa using ih (i + 1)
  rw [key fuel 0] at h
  simp at h

/-- C9: if the hit loop ends at `pv ≤ 21`, the dealer ends at `dv ≤ 21`
and `pv ≤ dv`, then (outside the early 21-branch) `blackjack` returns
reward 0 — and in every case the returned reward is not −1 when the
player did not bust. -/
theorem C9_no_loss_without_bust :
    ∀ (fuel : ℕ) (playerValueCards : ℤ) (dealerCards : List ℤ) (policy : ℤ → ℤ → ℚ)
      (ace : Bool) (draws : ℕ → ℕ) (pv : ℤ) (ace' : Bool) (hist : List ℤ) (i : ℕ)
      (dv : ℤ) (j : ℕ) (res : BJReturn),
      playerLoop policy draws fuel playerValueCards ace [0] 0 = some (pv, ace', hist, i) →
      dealer_strategy draws fuel dealerCards.sum i = some (dv, j) →
      pv ≤ 21 → dv ≤ 21 → pv ≤ dv →
      blackjack fuel playerValueCards dealerCards policy ace draws = some res →
      res.reward ≠ -1 ∧
        (¬(playerValueCards = 21 ∧ dealerCards.sum ≠ 21) → res = .full 0 (hist ++ [0])) := by
  intro fuel v dc policy ace draws pv ace' hist i dv j res hp hd hpv hdv hle hres
  by_cases he : v = 21 ∧ dc.sum ≠ 21
  · simp only [blackjack, if_pos he] at hres
    obtain rfl : BJReturn.bare 1 = res := by injection hres
    exact ⟨by simp [BJReturn.reward], fun hc => absurd he hc⟩
  · simp only [blackjack, if_neg he] at hres
    rw [hp] at hres
    dsimp only at hres
    rw [hd] at hres
    dsimp only at hres
    rw [if_neg (by omega), if_neg (by omega), if_neg (by omega)] at hres
    obtain rfl : BJReturn.full 0 (hist ++ [0]) = res := by injection hres
    exact ⟨by simp [BJReturn.reward], fun _ => rfl⟩

/-- Witness for C9: a 20–20 push returns reward 0. -/
theorem C9_witness :
    playerLoop stdPolicy (fun _ => 1) 3 20 false [0] 0 = some (20, false, [0], 0) ∧
    dealer_strategy (fun _ => 1) 3 ([10, 10] : List ℤ).sum 0 = some (20, 0) ∧
    (20 : ℤ) ≤ 21 ∧ (20 : ℤ) ≤ 21 ∧ (20 : ℤ) ≤ 20 ∧
    blackjack 3 20 [10, 10] stdPolicy false (fun _ => 1) = some (.full 0 ([0] ++ [0])) ∧
    (BJReturn.full 0 ([0] ++ [0])).reward ≠ -1 ∧
      (¬((20 : ℤ) = 21 ∧ ([10, 10] : List ℤ).sum ≠ 21) →
        BJReturn.full 0 ([0] ++ [0]) = .full 0 ([0] ++ [0])) :=
  ⟨by decide, by decide, by decide, by decide, by decide, by decide,
    C9_no_loss_without_bust 3 20 [10, 10] stdPolicy false (fun _ => 1) 20 false [0] 0
      20 0 (.full 0 ([0] ++ [0])) (by decide) (by decide) (by decide) (by decide)
      (by decide) (by decide)⟩

end Blackjack
